import Mathlib

/-!
Verification of `closest_sum.py` (`find_closest_sum_to_zero`).

The Python core sorts its input list in place, then runs a two-pointer
scan from both ends, tracking the pair whose sum has the smallest
absolute value.  We embed it shallowly: the list is a `List Int`,
indexing `arr[i]` is `List.getD arr i 0`, the in-place `arr.sort()`
becomes returning the sorted list alongside the result, the sentinel
`min_sum = float('inf')` becomes `Option Int` with `none` standing for
infinity, and the sentinel `result = (None, None)` becomes
`Option (Int × Int)` with `none` standing for `(None, None)`.
`raise ValueError(...)` becomes `Except.error` carrying the message.
The `while left < right` loop shrinks `right - left` by exactly one
each iteration, so it is written with that gap as a structural
recursion depth (`scanGo`); `scan` supplies the exact depth.
-/

namespace ClosestSum

/-- Model of the Python comparison `abs(current_sum) < abs(min_sum)`
where `min_sum` may still be the initial `float('inf')` (modelled by
`none`, which every finite value beats). -/
def absLtMin (c : Int) (minSum : Option Int) : Bool :=
  match minSum with
  | none => true
  | some m => c.natAbs < m.natAbs

/-- Body of the `while left < right` loop of `find_closest_sum_to_zero`
(lines 34–46 of `closest_sum.py`): read `arr[left] + arr[right]`,
update `(min_sum, result)` when strictly closer to zero, then move
`left` up when the sum is negative and `right` down otherwise.  The
first argument is the remaining iteration budget `right - left`. -/
def scanGo (s : List Int) : Nat → Nat → Nat → Option Int →
    Option (Int × Int) → Option (Int × Int)
  | 0, _, _, _, result => result
  | n + 1, left, right, minSum, result =>
    if left < right then
      let c := s.getD left 0 + s.getD right 0
      let minSum' := if absLtMin c minSum then some c else minSum
      let result' := if absLtMin c minSum then
          some (s.getD left 0, s.getD right 0) else result
      if c < 0 then scanGo s n (left + 1) right minSum' result'
      else scanGo s n left (right - 1) minSum' result'
    else result

/-- The loop of `find_closest_sum_to_zero`, entered with the exact
iteration budget `right - left`. -/
def scan (s : List Int) (left right : Nat) (minSum : Option Int)
    (result : Option (Int × Int)) : Option (Int × Int) :=
  scanGo s (right - left) left right minSum result

/-- Model of `find_closest_sum_to_zero` (lines 21–48 of
`closest_sum.py`): guard the length, sort, scan.  The returned second
component is the caller's list after the call (the in-place
`arr.sort()` mutation). -/
def find_closest_sum_to_zero (arr : List Int) :
    Except String (Option (Int × Int) × List Int) :=
  if arr.length < 2 then
    Except.error "Array must contain at least 2 elements"
  else
    let s := arr.insertionSort (· ≤ ·)
    Except.ok (scan s 0 (s.length - 1) none none, s)

/-- Pairs `(arr[left], arr[right])` read by the loop, in iteration
order, with iteration budget `n`. -/
def visitedGo (s : List Int) : Nat → Nat → Nat → List (Int × Int)
  | 0, _, _ => []
  | n + 1, left, right =>
    if left < right then
      let c := s.getD left 0 + s.getD right 0
      (s.getD left 0, s.getD right 0) ::
        (if c < 0 then visitedGo s n (left + 1) right
         else visitedGo s n left (right - 1))
    else []

/-- The visited trace of the scan started at `(left, right)`. -/
def visitedPairs (s : List Int) (left right : Nat) : List (Int × Int) :=
  visitedGo s (right - left) left right

/-- Absolute value of a pair's sum, the quantity the loop minimises. -/
def pairAbs (p : Int × Int) : Nat := (p.1 + p.2).natAbs

/-- Replay of the loop's update step over an explicit list of visited
pairs: update `(min_sum, result)` exactly when strictly closer to
zero. -/
def scanFold (minSum : Option Int) (result : Option (Int × Int)) :
    List (Int × Int) → Option (Int × Int)
  | [] => result
  | p :: ps =>
    if absLtMin (p.1 + p.2) minSum then scanFold (some (p.1 + p.2)) (some p) ps
    else scanFold minSum result ps

/-- First element of a list attaining the minimal `pairAbs`
(ties broken toward the earlier element). -/
def firstMin : List (Int × Int) → Option (Int × Int)
  | [] => none
  | p :: ps =>
    match firstMin ps with
    | none => some p
    | some q => if pairAbs p ≤ pairAbs q then some p else some q

end ClosestSum

namespace ClosestSum

lemma scanGo_eq_scanFold (s : List Int) :
    ∀ n left right minSum result,
      scanGo s n left right minSum result =
        scanFold minSum result (visitedGo s n left right) := by
  intro n
  induction n with
  | zero => intro l r ms res; rfl
  | succ n ih =>
    intro l r ms res
    simp only [scanGo, visitedGo]
    by_cases h : l < r
    · simp only [if_pos h, scanFold]
      by_cases ha : absLtMin (s.getD l 0 + s.getD r 0) ms = true
      · simp only [if_pos ha]
        by_cases hc : s.getD l 0 + s.getD r 0 < 0
        · simp only [if_pos hc, ih]
        · simp only [if_neg hc, ih]
      · simp only [if_neg ha]
        by_cases hc : s.getD l 0 + s.getD r 0 < 0
        · simp only [if_pos hc, ih]
        · simp only [if_neg hc, ih]
    · simp only [if_neg h, scanFold]

lemma absLtMin_pair {a q : Int × Int} :
    absLtMin (a.1 + a.2) (some (q.1 + q.2)) = true ↔ pairAbs a < pairAbs q := by
  simp [absLtMin, pairAbs]

lemma firstMin_cons_none {a : Int × Int} {t : List (Int × Int)}
    (hm : firstMin t = none) : firstMin (a :: t) = some a := by
  rw [firstMin, hm]

lemma firstMin_cons_some {a m : Int × Int} {t : List (Int × Int)}
    (hm : firstMin t = some m) :
    firstMin (a :: t) = if pairAbs a ≤ pairAbs m then some a else some m := by
  rw [firstMin, hm]

lemma scanFold_some (q : Int × Int) (ps : List (Int × Int)) :
    scanFold (some (q.1 + q.2)) (some q) ps =
      match firstMin ps with
      | none => some q
      | some p => if pairAbs p < pairAbs q then some p else some q := by
  induction ps generalizing q with
  | nil => rfl
  | cons a t ih =>
    rw [scanFold]
    by_cases ha : pairAbs a < pairAbs q
    · rw [if_pos (absLtMin_pair.mpr ha), ih a]
      cases hm : firstMin t with
      | none =>
        rw [firstMin_cons_none hm]
        simp only [if_pos ha]
      | some m =>
        rw [firstMin_cons_some hm]
        by_cases h2 : pairAbs a ≤ pairAbs m
        · simp only [if_pos h2, if_neg (by omega : ¬ pairAbs m < pairAbs a), if_pos ha]
        · simp only [if_neg h2, if_pos (by omega : pairAbs m < pairAbs a),
            if_pos (by omega : pairAbs m < pairAbs q)]
    · rw [if_neg (fun hh => ha (absLtMin_pair.mp hh)), ih q]
      cases hm : firstMin t with
      | none =>
        rw [firstMin_cons_none hm]
        simp only [if_neg ha]
      | some m =>
        rw [firstMin_cons_some hm]
        by_cases h2 : pairAbs a ≤ pairAbs m
        · simp only [if_pos h2, if_neg ha,
            if_neg (by omega : ¬ pairAbs m < pairAbs q)]
        · simp only [if_neg h2]

lemma scanFold_none_eq_firstMin (ps : List (Int × Int)) :
    scanFold none none ps = firstMin ps := by
  cases ps with
  | nil => rfl
  | cons a t =>
    rw [scanFold, if_pos (by rfl : absLtMin (a.1 + a.2) none = true), scanFold_some a t]
    cases hm : firstMin t with
    | none => rw [firstMin_cons_none hm]
    | some m =>
      rw [firstMin_cons_some hm]
      by_cases h2 : pairAbs a ≤ pairAbs m
      · simp only [if_pos h2, if_neg (by omega : ¬ pairAbs m < pairAbs a)]
      · simp only [if_neg h2, if_pos (by omega : pairAbs m < pairAbs a)]

lemma scan_eq_firstMin (s : List Int) (l r : Nat) :
    scan s l r none none = firstMin (visitedPairs s l r) := by
  rw [scan, visitedPairs, scanGo_eq_scanFold, scanFold_none_eq_firstMin]

end ClosestSum

namespace ClosestSum

lemma firstMin_eq_none_iff {ps : List (Int × Int)} :
    firstMin ps = none ↔ ps = [] := by
  cases ps with
  | nil => simp [firstMin]
  | cons a t =>
    simp only [List.cons_ne_nil, iff_false]
    cases hm : firstMin t with
    | none => rw [firstMin_cons_none hm]; simp
    | some m =>
      rw [firstMin_cons_some hm]
      split_ifs <;> simp

lemma firstMin_mem : ∀ (ps : List (Int × Int)) (p : Int × Int),
    firstMin ps = some p → p ∈ ps := by
  intro ps
  induction ps with
  | nil => intro p h; simp [firstMin] at h
  | cons a t ih =>
    intro p h
    cases hm : firstMin t with
    | none =>
      rw [firstMin_cons_none hm] at h
      simp at h
      simp [h]
    | some m =>
      rw [firstMin_cons_some hm] at h
      by_cases h2 : pairAbs a ≤ pairAbs m
      · rw [if_pos h2] at h
        simp at h
        simp [h]
      · rw [if_neg h2] at h
        simp at h
        subst h
        exact List.mem_cons_of_mem a (ih m hm)

lemma firstMin_le : ∀ (ps : List (Int × Int)) (p : Int × Int),
    firstMin ps = some p → ∀ q ∈ ps, pairAbs p ≤ pairAbs q := by
  intro ps
  induction ps with
  | nil => intro p h; simp [firstMin] at h
  | cons a t ih =>
    intro p h q hq
    cases hm : firstMin t with
    | none =>
      rw [firstMin_cons_none hm] at h
      simp at h
      subst h
      have ht : t = [] := firstMin_eq_none_iff.mp hm
      subst ht
      simp at hq
      subst hq
      exact le_refl _
    | some m =>
      rw [firstMin_cons_some hm] at h
      by_cases h2 : pairAbs a ≤ pairAbs m
      · rw [if_pos h2] at h
        simp at h
        subst h
        rcases List.mem_cons.mp hq with hq | hq
        · subst hq; exact le_refl _
        · exact le_trans h2 (ih m hm q hq)
      · rw [if_neg h2] at h
        simp at h
        subst h
        rcases List.mem_cons.mp hq with hq | hq
        · subst hq; omega
        · exact ih m hm q hq

lemma firstMin_decomp : ∀ (ps : List (Int × Int)) (p : Int × Int),
    firstMin ps = some p →
    ∃ l1 l2, ps = l1 ++ p :: l2 ∧ ∀ q ∈ l1, pairAbs p < pairAbs q := by
  intro ps
  induction ps with
  | nil => intro p h; simp [firstMin] at h
  | cons a t ih =>
    intro p h
    cases hm : firstMin t with
    | none =>
      rw [firstMin_cons_none hm] at h
      simp at h
      subst h
      exact ⟨[], t, rfl, by simp⟩
    | some m =>
      rw [firstMin_cons_some hm] at h
      by_cases h2 : pairAbs a ≤ pairAbs m
      · rw [if_pos h2] at h
        simp at h
        subst h
        exact ⟨[], t, rfl, by simp⟩
      · rw [if_neg h2] at h
        simp at h
        subst h
        obtain ⟨l1, l2, ht, hlt⟩ := ih m hm
        refine ⟨a :: l1, l2, by simp [ht], ?_⟩
        intro q hq
        rcases List.mem_cons.mp hq with hq | hq
        · subst hq; omega
        · exact hlt q hq

end ClosestSum

namespace ClosestSum

lemma getD_mono {s : List Int} (hs : s.Sorted (· ≤ ·)) {i j : Nat}
    (hij : i ≤ j) (hj : j < s.length) : s.getD i 0 ≤ s.getD j 0 := by
  have hi : i < s.length := lt_of_le_of_lt hij hj
  rw [List.getD_eq_getElem s 0 hi, List.getD_eq_getElem s 0 hj]
  rcases Nat.eq_or_lt_of_le hij with h | h
  · subst h; exact le_refl _
  · have := hs.rel_get_of_lt (a := ⟨i, hi⟩) (b := ⟨j, hj⟩) h
    simpa using this

lemma visitedGo_mem : ∀ (s : List Int) (n l r : Nat) (p : Int × Int),
    p ∈ visitedGo s n l r →
    ∃ i j, l ≤ i ∧ i < j ∧ j ≤ r ∧ p = (s.getD i 0, s.getD j 0) := by
  intro s n
  induction n with
  | zero => intro l r p hp; simp [visitedGo] at hp
  | succ n ih =>
    intro l r p hp
    rw [visitedGo] at hp
    by_cases h : l < r
    · rw [if_pos h] at hp
      rcases List.mem_cons.mp hp with hp | hp
      · exact ⟨l, r, le_refl _, h, le_refl _, hp⟩
      · by_cases hc : s.getD l 0 + s.getD r 0 < 0
        · rw [if_pos hc] at hp
          obtain ⟨i, j, h1, h2, h3, h4⟩ := ih (l + 1) r p hp
          exact ⟨i, j, by omega, h2, h3, h4⟩
        · rw [if_neg hc] at hp
          obtain ⟨i, j, h1, h2, h3, h4⟩ := ih l (r - 1) p hp
          exact ⟨i, j, h1, h2, by omega, h4⟩
    · rw [if_neg h] at hp
      simp at hp

lemma visitedGo_length : ∀ (s : List Int) (n l r : Nat), r - l ≤ n →
    (visitedGo s n l r).length = r - l := by
  intro s n
  induction n with
  | zero => intro l r h; rw [visitedGo]; simp; omega
  | succ n ih =>
    intro l r h
    simp only [visitedGo]
    by_cases hlr : l < r
    · rw [if_pos hlr]
      by_cases hc : s.getD l 0 + s.getD r 0 < 0
      · rw [if_pos hc]
        simp only [List.length_cons, ih (l + 1) r (by omega)]
        omega
      · rw [if_neg hc]
        simp only [List.length_cons, ih l (r - 1) (by omega)]
        omega
    · rw [if_neg hlr]
      simp only [List.length_nil]
      omega

end ClosestSum

namespace ClosestSum

lemma visitedGo_covers {s : List Int} (hs : s.Sorted (· ≤ ·)) :
    ∀ (n l r : Nat), r - l ≤ n → r < s.length →
    ∀ i j, l ≤ i → i < j → j ≤ r →
    ∃ p ∈ visitedGo s n l r, pairAbs p ≤ (s.getD i 0 + s.getD j 0).natAbs := by
  intro n
  induction n with
  | zero => intro l r hn hr i j h1 h2 h3; omega
  | succ n ih =>
    intro l r hn hr i j h1 h2 h3
    have hlr : l < r := by omega
    simp only [visitedGo, if_pos hlr]
    by_cases hc : s.getD l 0 + s.getD r 0 < 0
    · rw [if_pos hc]
      by_cases hi : l + 1 ≤ i
      · obtain ⟨p, hp, hple⟩ := ih (l + 1) r (by omega) hr i j hi h2 h3
        exact ⟨p, List.mem_cons_of_mem _ hp, hple⟩
      · have hil : i = l := by omega
        subst hil
        refine ⟨(s.getD i 0, s.getD r 0), List.mem_cons_self _ _, ?_⟩
        by_cases hj : j = r
        · subst hj; simp [pairAbs]
        · have hjr : s.getD j 0 ≤ s.getD r 0 := getD_mono hs (by omega) hr
          simp only [pairAbs]
          omega
    · rw [if_neg hc]
      by_cases hj : j ≤ r - 1
      · obtain ⟨p, hp, hple⟩ := ih l (r - 1) (by omega) (by omega) i j h1 h2 hj
        exact ⟨p, List.mem_cons_of_mem _ hp, hple⟩
      · have hjr : j = r := by omega
        subst hjr
        refine ⟨(s.getD l 0, s.getD j 0), List.mem_cons_self _ _, ?_⟩
        by_cases hi : i = l
        · subst hi; simp [pairAbs]
        · have hil : s.getD l 0 ≤ s.getD i 0 := getD_mono hs (by omega) (by omega)
          simp only [pairAbs]
          omega

lemma pair_sublist : ∀ (l : List Int) (i j : Nat), i < j → j < l.length →
    List.Sublist [l.getD i 0, l.getD j 0] l := by
  intro l
  induction l with
  | nil => intro i j hij hj; simp at hj
  | cons x xs ih =>
    intro i j hij hj
    cases i with
    | zero =>
      cases j with
      | zero => omega
      | succ j' =>
        simp only [List.getD_cons_zero, List.getD_cons_succ]
        apply List.Sublist.cons₂
        rw [List.singleton_sublist]
        have hj' : j' < xs.length := by simpa using hj
        rw [List.getD_eq_getElem xs 0 hj']
        exact List.getElem_mem hj'
    | succ i' =>
      cases j with
      | zero => omega
      | succ j' =>
        simp only [List.getD_cons_succ]
        exact List.Sublist.cons x (ih i' j' (by omega) (by simpa using hj))

lemma pair_subperm_of_indices {l : List Int} {i j : Nat} (hij : i ≠ j)
    (hi : i < l.length) (hj : j < l.length) :
    List.Subperm [l.getD i 0, l.getD j 0] l := by
  rcases Nat.lt_or_ge i j with h | h
  · exact (pair_sublist l i j h hj).subperm
  · have hlt : j < i := by omega
    have hsub := (pair_sublist l j i hlt hi).subperm
    exact (List.Perm.subperm_right
      (List.Perm.swap (l.getD j 0) (l.getD i 0) [])).mpr hsub

lemma subperm_pair_sum {x y : Int} {s : List Int}
    (h : List.Subperm [x, y] s) :
    ∃ i j, i < j ∧ j < s.length ∧ s.getD i 0 + s.getD j 0 = x + y := by
  obtain ⟨t, hperm, hsub⟩ := h
  obtain ⟨is, hmap, hpw⟩ := List.sublist_eq_map_get hsub
  have hlen : is.length = 2 := by
    have h1 : t.length = 2 := by rw [hperm.length_eq]; rfl
    have h2 : t.length = is.length := by rw [hmap]; simp
    omega
  match is, hlen with
  | [i, j], _ =>
    have hij : i < j := by
      have := List.pairwise_cons.mp hpw
      exact this.1 j (by simp)
    have hsum : t.sum = x + y := by
      have := hperm.sum_eq
      simpa using this
    rw [hmap] at hsum
    simp only [List.map_cons, List.map_nil, List.sum_cons, List.sum_nil,
      List.get_eq_getElem, add_zero] at hsum
    refine ⟨i.1, j.1, hij, j.2, ?_⟩
    rw [List.getD_eq_getElem s 0 i.2, List.getD_eq_getElem s 0 j.2]
    exact hsum

end ClosestSum

namespace ClosestSum

lemma find_ok_inv {arr : List Int} {p : Option (Int × Int)} {s : List Int}
    (hf : find_closest_sum_to_zero arr = Except.ok (p, s)) :
    2 ≤ arr.length ∧ s = arr.insertionSort (· ≤ ·) ∧
      p = firstMin (visitedPairs s 0 (s.length - 1)) := by
  by_cases h : arr.length < 2
  · rw [find_closest_sum_to_zero, if_pos h] at hf
    exact absurd hf (by simp)
  · rw [find_closest_sum_to_zero, if_neg h] at hf
    simp only [Except.ok.injEq, Prod.mk.injEq] at hf
    obtain ⟨h1, h2⟩ := hf
    subst h2
    exact ⟨by omega, rfl, by rw [← h1, scan_eq_firstMin]⟩

lemma sort_length (arr : List Int) :
    (arr.insertionSort (· ≤ ·)).length = arr.length :=
  (List.perm_insertionSort _ arr).length_eq

lemma find_spec {arr : List Int} (h : 2 ≤ arr.length) :
    ∃ p, find_closest_sum_to_zero arr =
        Except.ok (some p, arr.insertionSort (· ≤ ·)) ∧
      firstMin (visitedPairs (arr.insertionSort (· ≤ ·)) 0
        ((arr.insertionSort (· ≤ ·)).length - 1)) = some p := by
  have hlen : ¬ arr.length < 2 := by omega
  have hslen : (arr.insertionSort (· ≤ ·)).length = arr.length := sort_length arr
  have hne : visitedPairs (arr.insertionSort (· ≤ ·)) 0
      ((arr.insertionSort (· ≤ ·)).length - 1) ≠ [] := by
    intro hnil
    have hl := visitedGo_length (arr.insertionSort (· ≤ ·))
      ((arr.insertionSort (· ≤ ·)).length - 1) 0
      ((arr.insertionSort (· ≤ ·)).length - 1) (by omega)
    rw [visitedPairs, Nat.sub_zero] at hnil
    rw [hnil] at hl
    simp at hl
    omega
  cases hm : firstMin (visitedPairs (arr.insertionSort (· ≤ ·)) 0
      ((arr.insertionSort (· ≤ ·)).length - 1)) with
  | none => exact absurd (firstMin_eq_none_iff.mp hm) hne
  | some p =>
    refine ⟨p, ?_, rfl⟩
    rw [find_closest_sum_to_zero, if_neg hlen]
    simp only [Except.ok.injEq, Prod.mk.injEq]
    exact ⟨by rw [scan_eq_firstMin, hm], trivial⟩

end ClosestSum

namespace ClosestSum

/-- Claim C1: for every input of length ≥ 2, the returned pair occurs in
the input (counting multiplicity) and attains the global minimum
absolute pair sum over all pairs of distinct positions. -/
theorem find_closest_pair_optimal (arr : List Int) (h : 2 ≤ arr.length) :
    ∃ a b s, find_closest_sum_to_zero arr = Except.ok (some (a, b), s) ∧
      List.Subperm [a, b] arr ∧
      ∀ i j, i < arr.length → j < arr.length → i ≠ j →
        (a + b).natAbs ≤ (arr.getD i 0 + arr.getD j 0).natAbs := by
  obtain ⟨p, hfind, hfm⟩ := find_spec h
  obtain ⟨a, b⟩ := p
  set s := arr.insertionSort (· ≤ ·) with hsdef
  have hsorted : s.Sorted (· ≤ ·) := List.sorted_insertionSort _ arr
  have hperm : s.Perm arr := List.perm_insertionSort _ arr
  have hslen : s.length = arr.length := hperm.length_eq
  refine ⟨a, b, s, hfind, ?_, ?_⟩
  · have hmem := firstMin_mem _ _ hfm
    rw [visitedPairs, Nat.sub_zero] at hmem
    obtain ⟨i, j, h1, h2, h3, h4⟩ :=
      visitedGo_mem s (s.length - 1) 0 (s.length - 1) (a, b) hmem
    have hj : j < s.length := by omega
    rw [Prod.mk.injEq] at h4
    obtain ⟨ha, hb⟩ := h4
    subst ha; subst hb
    exact ((pair_sublist s i j h2 hj).subperm).trans hperm.subperm
  · intro i0 j0 hi0 hj0 hne
    have hx : List.Subperm [arr.getD i0 0, arr.getD j0 0] arr :=
      pair_subperm_of_indices hne hi0 hj0
    have hxs : List.Subperm [arr.getD i0 0, arr.getD j0 0] s :=
      hx.trans hperm.symm.subperm
    obtain ⟨i', j', hij', hj's, hsum⟩ := subperm_pair_sum hxs
    obtain ⟨q, hq, hqle⟩ := visitedGo_covers hsorted (s.length - 1) 0
      (s.length - 1) (by omega) (by omega) i' j' (by omega) hij' (by omega)
    have hple := firstMin_le _ _ hfm q
      (by rw [visitedPairs, Nat.sub_zero]; exact hq)
    simp only [pairAbs] at hple hqle
    rw [hsum] at hqle
    exact le_trans hple hqle

/-- Claim C2: the call fails with the "array too short" error exactly
when the input has fewer than 2 elements. -/
theorem find_fails_iff_short (arr : List Int) :
    find_closest_sum_to_zero arr =
      Except.error "Array must contain at least 2 elements" ↔
    arr.length < 2 := by
  constructor
  · intro hf
    by_contra hlen
    rw [find_closest_sum_to_zero, if_neg hlen] at hf
    exact absurd hf (by simp)
  · intro hlen
    rw [find_closest_sum_to_zero, if_pos hlen]

/-- Claim C3: the best pair is updated only on a strictly smaller
absolute sum, so the returned pair is the first pair in scan order
attaining the minimal absolute sum: every earlier visited pair has a
strictly larger absolute sum and every visited pair has one at least
as large. -/
theorem find_first_encountered_tie (arr : List Int) (p : Int × Int)
    (s : List Int)
    (hf : find_closest_sum_to_zero arr = Except.ok (some p, s)) :
    ∃ l1 l2, visitedPairs s 0 (s.length - 1) = l1 ++ p :: l2 ∧
      (∀ q ∈ l1, pairAbs p < pairAbs q) ∧
      ∀ q ∈ visitedPairs s 0 (s.length - 1), pairAbs p ≤ pairAbs q := by
  obtain ⟨-, -, hp⟩ := find_ok_inv hf
  obtain ⟨l1, l2, hdec, hlt⟩ := firstMin_decomp _ _ hp.symm
  exact ⟨l1, l2, hdec, hlt, firstMin_le _ _ hp.symm⟩

/-- Claim C4: at every loop iteration with `left < right`, the left
cursor advances when the current sum is negative and otherwise
(including a sum of exactly zero) the right cursor retreats; the loop
runs for exactly `right - left` iterations, never stopping early. -/
theorem scan_pointer_moves (s : List Int) (l r : Nat) (ms : Option Int)
    (res : Option (Int × Int)) (h : l < r) :
    scan s l r ms res =
      (let c := s.getD l 0 + s.getD r 0
       let ms' := if absLtMin c ms then some c else ms
       let res' := if absLtMin c ms then some (s.getD l 0, s.getD r 0)
         else res
       if c < 0 then scan s (l + 1) r ms' res'
       else scan s l (r - 1) ms' res') ∧
    (visitedPairs s l r).length = r - l := by
  constructor
  · obtain ⟨k, hk⟩ : ∃ k, r - l = k + 1 := ⟨r - l - 1, by omega⟩
    simp only [scan, hk, scanGo, if_pos h]
    rw [show r - (l + 1) = k from by omega, show r - 1 - l = k from by omega]
  · rw [visitedPairs]
    exact visitedGo_length s (r - l) l r (le_refl _)

/-- Claim C5 counterexample: on `[-1, -2, -3, -4, -5]` the code returns
the tuple `(-2, -1)` (read as `(arr[left], arr[right])` from the sorted
array), which is not the tuple `(-1, -2)` stated in the spec. -/
theorem find_example_negatives_refuted :
    find_closest_sum_to_zero [-1, -2, -3, -4, -5] =
      Except.ok (some (-2, -1), [-5, -4, -3, -2, -1]) ∧
    ((-2 : Int), (-1 : Int)) ≠ ((-1 : Int), (-2 : Int)) :=
  ⟨rfl, by decide⟩

/-- Claim C5 (amended): `[1, 2, 3, 4, 5]` yields `(1, 2)`,
`[-1, -2, -3, -4, -5]` yields `(-2, -1)` (the same two values as the
spec's `(-1, -2)` but ordered as read from the sorted array), and
`[0, 0]` yields `(0, 0)`. -/
theorem find_example_scenarios :
    find_closest_sum_to_zero [1, 2, 3, 4, 5] =
      Except.ok (some (1, 2), [1, 2, 3, 4, 5]) ∧
    find_closest_sum_to_zero [-1, -2, -3, -4, -5] =
      Except.ok (some (-2, -1), [-5, -4, -3, -2, -1]) ∧
    find_closest_sum_to_zero [0, 0] = Except.ok (some (0, 0), [0, 0]) :=
  ⟨rfl, rfl, rfl⟩

/-- Claim C6: on any input of length ≥ 2 the call succeeds with an
actual pair, never the `(None, None)` sentinel, and the returned
pair's components both existed in the input sequence (counting
multiplicity). -/
theorem find_returns_pair (arr : List Int) (h : 2 ≤ arr.length) :
    ∃ p s, find_closest_sum_to_zero arr = Except.ok (some p, s) ∧
      List.Subperm [p.1, p.2] arr := by
  obtain ⟨p, hfind, hfm⟩ := find_spec h
  set s := arr.insertionSort (· ≤ ·) with hsdef
  have hperm : s.Perm arr := List.perm_insertionSort _ arr
  have hslen : s.length = arr.length := hperm.length_eq
  refine ⟨p, s, hfind, ?_⟩
  have hmem := firstMin_mem _ _ hfm
  rw [visitedPairs, Nat.sub_zero] at hmem
  obtain ⟨i, j, h1, h2, h3, h4⟩ :=
    visitedGo_mem s (s.length - 1) 0 (s.length - 1) p hmem
  have hj : j < s.length := by omega
  rw [h4]
  exact ((pair_sublist s i j h2 hj).subperm).trans hperm.subperm

/-- Claim C7: after a successful call the caller's list is sorted in
non-decreasing order and still holds the same multiset of elements. -/
theorem find_leaves_input_sorted (arr : List Int) (p : Option (Int × Int))
    (s : List Int)
    (hf : find_closest_sum_to_zero arr = Except.ok (p, s)) :
    s.Sorted (· ≤ ·) ∧ s.Perm arr := by
  obtain ⟨-, hs, -⟩ := find_ok_inv hf
  subst hs
  exact ⟨List.sorted_insertionSort _ arr, List.perm_insertionSort _ arr⟩

/-- Claim C8: running the core on an already-sorted copy of the same
values gives the same outcome as on the original sequence. -/
theorem find_on_sorted_copy (arr : List Int) (h : 2 ≤ arr.length) :
    find_closest_sum_to_zero (arr.insertionSort (· ≤ ·)) =
      find_closest_sum_to_zero arr := by
  have hid : (arr.insertionSort (· ≤ ·)).insertionSort (· ≤ ·) =
      arr.insertionSort (· ≤ ·) :=
    (List.sorted_insertionSort _ arr).insertionSort_eq
  simp only [find_closest_sum_to_zero, sort_length, hid]

/-- Claim C9: the core is deterministic; two inputs that sort to the
same list produce identical outcomes (in particular, repeated calls on
the same input agree). -/
theorem find_deterministic_on_sort (arr1 arr2 : List Int)
    (h : arr1.insertionSort (· ≤ ·) = arr2.insertionSort (· ≤ ·)) :
    find_closest_sum_to_zero arr1 = find_closest_sum_to_zero arr2 := by
  have hlen : arr1.length = arr2.length := by
    rw [← sort_length arr1, ← sort_length arr2, h]
  simp only [find_closest_sum_to_zero, h, hlen]

/-- Claim C10: the returned pair `(a, b)` satisfies `a ≤ b`, because
both components are read from the sorted array at positions
`left < right`. -/
theorem find_pair_ordered (arr : List Int) (a b : Int) (s : List Int)
    (hf : find_closest_sum_to_zero arr = Except.ok (some (a, b), s)) :
    a ≤ b := by
  obtain ⟨hlen2, hs, hp⟩ := find_ok_inv hf
  have hsorted : s.Sorted (· ≤ ·) := by
    rw [hs]; exact List.sorted_insertionSort _ arr
  have hslen : s.length = arr.length := by rw [hs]; exact sort_length arr
  have hmem := firstMin_mem _ _ hp.symm
  rw [visitedPairs, Nat.sub_zero] at hmem
  obtain ⟨i, j, h1, h2, h3, h4⟩ :=
    visitedGo_mem s (s.length - 1) 0 (s.length - 1) (a, b) hmem
  have hj : j < s.length := by omega
  rw [Prod.mk.injEq] at h4
  obtain ⟨ha, hb⟩ := h4
  rw [ha, hb]
  exact getD_mono hsorted (le_of_lt h2) hj

end ClosestSum

namespace ClosestSum

/-- Witness instantiating the C1 theorem at the input `[1, -1, 3]`. -/
theorem find_closest_pair_optimal_witness :
    2 ≤ ([1, -1, 3] : List Int).length ∧
    ∃ a b s, find_closest_sum_to_zero [1, -1, 3] =
        Except.ok (some (a, b), s) ∧
      List.Subperm [a, b] [1, -1, 3] ∧
      ∀ i j, i < ([1, -1, 3] : List Int).length →
        j < ([1, -1, 3] : List Int).length → i ≠ j →
        (a + b).natAbs ≤
          (([1, -1, 3] : List Int).getD i 0 +
            ([1, -1, 3] : List Int).getD j 0).natAbs :=
  ⟨by decide, find_closest_pair_optimal [1, -1, 3] (by decide)⟩

/-- Witness instantiating the C3 theorem at the input `[1, 2, 2]`,
whose scan visits the tied pairs `(1, 2)` and `(1, 2)`. -/
theorem find_first_encountered_tie_witness :
    find_closest_sum_to_zero [1, 2, 2] =
      Except.ok (some (1, 2), [1, 2, 2]) ∧
    ∃ l1 l2, visitedPairs [1, 2, 2] 0 (([1, 2, 2] : List Int).length - 1) =
        l1 ++ (1, 2) :: l2 ∧
      (∀ q ∈ l1, pairAbs (1, 2) < pairAbs q) ∧
      ∀ q ∈ visitedPairs [1, 2, 2] 0 (([1, 2, 2] : List Int).length - 1),
        pairAbs (1, 2) ≤ pairAbs q :=
  ⟨rfl, find_first_encountered_tie [1, 2, 2] (1, 2) [1, 2, 2] rfl⟩

/-- Witness instantiating the C4 theorem at `s = [-3, 4]`, `left = 0`,
`right = 1`. -/
theorem scan_pointer_moves_witness :
    (0 : Nat) < 1 ∧
    (scan [-3, 4] 0 1 none none =
      (let c := ([-3, 4] : List Int).getD 0 0 + ([-3, 4] : List Int).getD 1 0
       let ms' := if absLtMin c none then some c else none
       let res' := if absLtMin c none then
           some (([-3, 4] : List Int).getD 0 0, ([-3, 4] : List Int).getD 1 0)
         else none
       if c < 0 then scan [-3, 4] (0 + 1) 1 ms' res'
       else scan [-3, 4] 0 (1 - 1) ms' res') ∧
    (visitedPairs [-3, 4] 0 1).length = 1 - 0) :=
  ⟨by decide, scan_pointer_moves [-3, 4] 0 1 none none (by decide)⟩

/-- Witness instantiating the C6 theorem at the input `[2, 5]`. -/
theorem find_returns_pair_witness :
    2 ≤ ([2, 5] : List Int).length ∧
    ∃ p s, find_closest_sum_to_zero [2, 5] = Except.ok (some p, s) ∧
      List.Subperm [p.1, p.2] [2, 5] :=
  ⟨by decide, find_returns_pair [2, 5] (by decide)⟩

/-- Witness instantiating the C7 theorem at the input `[3, 1]`. -/
theorem find_leaves_input_sorted_witness :
    find_closest_sum_to_zero [3, 1] = Except.ok (some (1, 3), [1, 3]) ∧
    (([1, 3] : List Int).Sorted (· ≤ ·) ∧ ([1, 3] : List Int).Perm [3, 1]) :=
  ⟨rfl, find_leaves_input_sorted [3, 1] (some (1, 3)) [1, 3] rfl⟩

/-- Witness instantiating the C8 theorem at the input `[2, 1]`. -/
theorem find_on_sorted_copy_witness :
    2 ≤ ([2, 1] : List Int).length ∧
    find_closest_sum_to_zero (([2, 1] : List Int).insertionSort (· ≤ ·)) =
      find_closest_sum_to_zero [2, 1] :=
  ⟨by decide, find_on_sorted_copy [2, 1] (by decide)⟩

/-- Witness instantiating the C9 theorem at the inputs `[1, 2]` and
`[2, 1]`, which sort identically. -/
theorem find_deterministic_on_sort_witness :
    ([1, 2] : List Int).insertionSort (· ≤ ·) =
      ([2, 1] : List Int).insertionSort (· ≤ ·) ∧
    find_closest_sum_to_zero [1, 2] = find_closest_sum_to_zero [2, 1] :=
  ⟨rfl, find_deterministic_on_sort [1, 2] [2, 1] rfl⟩

/-- Witness instantiating the C10 theorem at the input `[5, -7]`. -/
theorem find_pair_ordered_witness :
    find_closest_sum_to_zero [5, -7] = Except.ok (some (-7, 5), [-7, 5]) ∧
    (-7 : Int) ≤ 5 :=
  ⟨rfl, find_pair_ordered [5, -7] (-7) 5 [-7, 5] rfl⟩

end ClosestSum
